import Mathlib

/-!
# Shallow embedding of the trading backend

Embeds the trade-execution and portfolio-accounting core of
`src/backend/main.py` (endpoints `deposit`, `trade`, `get_report`, helper
`convert_to_usd`) over the data model of `src/backend/models.py`
(`User.balance`, `Portfolio`, `Transaction`).

Python floats are modelled as exact rationals (`ℚ`); the database tables
scoped to one user are modelled as an explicit `AccountState` record, with
the per-user portfolio rows as an association list keyed by symbol (the
SQLAlchemy queries filter on `user_id` and `symbol` and take `.first()`).
An endpoint that raises `HTTPException` (or `ZeroDivisionError`) before
`db.commit()` leaves the database unchanged; this is modelled by returning
`Except.error` carrying no state.
-/

/-- A portfolio row (`models.Portfolio`): shares held and weighted-average
price, stored in USD. -/
structure Position where
  quantity : ℚ
  avg_price : ℚ
deriving Repr, DecidableEq

/-- A transaction-log row (`models.Transaction`). -/
structure Transaction where
  symbol : String
  action : String
  quantity : ℚ
  price : ℚ
  total : ℚ
deriving Repr, DecidableEq

/-- The per-user ledger state: `User.balance`, the user's `Portfolio` rows
keyed by symbol, and the user's `Transaction` log in insertion order. -/
structure AccountState where
  balance : ℚ
  positions : List (String × Position)
  transactions : List Transaction
deriving Repr, DecidableEq

/-- The state of a freshly registered user: `balance = 0.0` (column default),
no portfolio rows, no transactions. -/
def initState : AccountState := ⟨0, [], []⟩

/-- Failures of the `/api/trade` endpoint: the two `HTTPException(400, ...)`
raises, and the `ZeroDivisionError` Python raises when a buy lands on an
existing position whose quantity sums with the bought quantity to zero.
`insufficientFunds` carries the two amounts interpolated into the message
`"Insufficient funds. Need ${total:.2f}, have ${balance:.2f}"`. -/
inductive TradeError where
  | insufficientFunds (required available : ℚ)
  | insufficientHoldings
  | zeroDivision
deriving Repr, DecidableEq

/-- First value stored under a key in an association list; models
`db.query(...).filter(... == symbol).first()` and Python `dict.get`. -/
def lookupKey {α : Type} (sym : String) : List (String × α) → Option α
  | [] => none
  | e :: rest => if e.1 = sym then some e.2 else lookupKey sym rest

/-- Overwrite the first row keyed `sym` (in-place ORM row update), or append
a fresh row when none exists. -/
def setPosition (sym : String) (p : Position) :
    List (String × Position) → List (String × Position)
  | [] => [(sym, p)]
  | e :: rest => if e.1 = sym then (sym, p) :: rest else e :: setPosition sym p rest

/-- Delete the first row keyed `sym` (`db.delete(position)`). -/
def erasePosition (sym : String) :
    List (String × Position) → List (String × Position)
  | [] => []
  | e :: rest => if e.1 = sym then rest else e :: erasePosition sym rest

/-- Endpoint `POST /api/deposit` (main.py 323-328): adds the requested amount to the
balance with no validation of the amount. -/
def deposit (st : AccountState) (amount : ℚ) : AccountState :=
  { st with balance := st.balance + amount }

/-- Python's `str.upper()`, character by character (currency codes are
ASCII). -/
def strUpper (s : String) : String := ⟨s.data.map Char.toUpper⟩

/-- Function `convert_to_usd` (main.py 919-932). The rate snapshot that the source
reads via `get_currencies()` is passed explicitly as an association list of
uppercase currency codes; a missing code defaults to rate `1`
(`rates.get(from_currency.upper(), 1)`). Python's `not from_currency` is
the empty-string test. -/
def convert_to_usd (amount : ℚ) (from_currency : String)
    (rates : List (String × ℚ)) : ℚ :=
  if from_currency = "" ∨ strUpper from_currency = "USD" then amount
  else
    let from_rate := (lookupKey (strUpper from_currency) rates).getD 1
    if from_rate ≤ 0 then amount
    else amount / from_rate

/-- Endpoint `POST /api/trade` (main.py 944-983) after quote fetch and currency
conversion: `price` is `price_usd = convert_to_usd(quote.price, currency)`
and `symbol` is already normalized. Follows the source branch for branch:
buy checks funds then updates/creates the position; sell checks holdings
then decrements (deleting the row if the quantity reaches exactly 0); any
other action string falls through both branches; every non-raising path
appends a `Transaction` row and commits. -/
def trade (st : AccountState) (symbol action : String) (quantity price : ℚ) :
    Except TradeError AccountState :=
  let total := price * quantity
  if action = "buy" then
    if st.balance < total then
      Except.error (TradeError.insufficientFunds total st.balance)
    else
      match lookupKey symbol st.positions with
      | some pos =>
          let newQty := pos.quantity + quantity
          if newQty = 0 then Except.error TradeError.zeroDivision
          else
            Except.ok
              { balance := st.balance - total
                positions :=
                  setPosition symbol
                    ⟨newQty, (pos.avg_price * pos.quantity + total) / newQty⟩
                    st.positions
                transactions :=
                  st.transactions ++ [⟨symbol, action, quantity, price, total⟩] }
      | none =>
          Except.ok
            { balance := st.balance - total
              positions := st.positions ++ [(symbol, ⟨quantity, price⟩)]
              transactions :=
                st.transactions ++ [⟨symbol, action, quantity, price, total⟩] }
  else if action = "sell" then
    match lookupKey symbol st.positions with
    | none => Except.error TradeError.insufficientHoldings
    | some pos =>
        if pos.quantity < quantity then Except.error TradeError.insufficientHoldings
        else
          let newQty := pos.quantity - quantity
          Except.ok
            { balance := st.balance + total
              positions :=
                if newQty = 0 then erasePosition symbol st.positions
                else setPosition symbol ⟨newQty, pos.avg_price⟩ st.positions
              transactions :=
                st.transactions ++ [⟨symbol, action, quantity, price, total⟩] }
  else
    Except.ok
      { st with transactions :=
          st.transactions ++ [⟨symbol, action, quantity, price, total⟩] }

/-- One holdings entry of the `/api/report` response (the accounting fields). -/
structure Holding where
  symbol : String
  quantity : ℚ
  avg_price : ℚ
  current_price : ℚ
  invested : ℚ
  current : ℚ
  profit : ℚ
  profit_percent : ℚ
deriving Repr, DecidableEq

/-- The `/api/report` response. -/
structure Report where
  balance : ℚ
  total_invested : ℚ
  total_current : ℚ
  total_profit : ℚ
  holdings : List Holding
deriving Repr, DecidableEq

/-- One iteration of the portfolio loop in `get_report` (main.py 1109-1141).
`quotes` maps a symbol to its already-USD-converted current price; a symbol
absent from `quotes` models a quote failure, which the source's
`except: pass` skips without touching the accumulators. -/
def reportStep (quotes : List (String × ℚ)) (acc : ℚ × ℚ × List Holding)
    (e : String × Position) : ℚ × ℚ × List Holding :=
  match lookupKey e.1 quotes with
  | none => acc
  | some current_price_usd =>
      let invested := e.2.avg_price * e.2.quantity
      let current := current_price_usd * e.2.quantity
      let profit := current - invested
      (acc.1 + invested, acc.2.1 + current,
        acc.2.2 ++
          [⟨e.1, e.2.quantity, e.2.avg_price, current_price_usd, invested,
            current, profit,
            if 0 < invested then profit / invested * 100 else 0⟩])

/-- Endpoint `GET /api/report` (main.py 1100-1150): folds the portfolio rows through
`reportStep` and returns balance, totals, and the holdings breakdown; it
issues no writes. -/
def get_report (st : AccountState) (quotes : List (String × ℚ)) : Report :=
  let r := st.positions.foldl (reportStep quotes) (0, 0, [])
  { balance := st.balance
    total_invested := r.1
    total_current := r.2.1
    total_profit := r.2.1 - r.1
    holdings := r.2.2 }

/-- A balance-mutating API call (the only two mutators of `User.balance`). -/
inductive Op where
  | deposit (amount : ℚ)
  | trade (symbol action : String) (quantity price : ℚ)
deriving Repr, DecidableEq

/-- Run one API call against the ledger; a raising `trade` leaves the
database unchanged (no commit). -/
def applyOp (st : AccountState) : Op → AccountState
  | Op.deposit a => deposit st a
  | Op.trade s act q p =>
      match trade st s act q p with
      | Except.ok st' => st'
      | Except.error _ => st

/-- Run a sequence of API calls left to right. -/
def runOps (st : AccountState) : List Op → AccountState
  | [] => st
  | op :: rest => runOps (applyOp st op) rest

/-- Requests whose parameters are well-formed in the sense of the spec:
nonnegative deposit amounts, positive trade quantities, nonnegative prices.
The source never checks any of this. -/
def validOp : Op → Bool
  | Op.deposit a => 0 ≤ a
  | Op.trade _ _ q p => 0 < q ∧ 0 ≤ p

/-! ## Association-list lemmas -/

theorem lookupKey_nil {α : Type} (sym : String) :
    lookupKey sym ([] : List (String × α)) = none := rfl

theorem lookupKey_cons {α : Type} (sym : String) (e : String × α)
    (rest : List (String × α)) :
    lookupKey sym (e :: rest) =
      if e.1 = sym then some e.2 else lookupKey sym rest := rfl

theorem lookupKey_setPosition_self (sym : String) (p : Position) :
    ∀ ps : List (String × Position),
      lookupKey sym (setPosition sym p ps) = some p
  | [] => by simp [setPosition, lookupKey_cons, lookupKey_nil]
  | e :: rest => by
      by_cases h : e.1 = sym
      · simp [setPosition, h, lookupKey_cons]
      · simp only [setPosition, h, if_false, lookupKey_cons]
        simp [h, lookupKey_setPosition_self sym p rest]

theorem lookupKey_append_single_self (sym : String) (p : Position) :
    ∀ ps : List (String × Position),
      lookupKey sym ps = none →
      lookupKey sym (ps ++ [(sym, p)]) = some p
  | [], _ => by simp [lookupKey_cons, lookupKey_nil]
  | e :: rest, h => by
      rw [lookupKey_cons] at h
      by_cases he : e.1 = sym
      · rw [if_pos he] at h
        exact absurd h (by simp)
      · rw [if_neg he] at h
        rw [List.cons_append, lookupKey_cons, if_neg he]
        exact lookupKey_append_single_self sym p rest h

theorem lookupKey_eq_none_of_not_mem {α : Type} (sym : String) :
    ∀ ps : List (String × α), sym ∉ ps.map Prod.fst →
      lookupKey sym ps = none
  | [], _ => rfl
  | e :: rest, h => by
      simp only [List.map_cons, List.mem_cons, not_or] at h
      rw [lookupKey_cons, if_neg (fun he => h.1 he.symm)]
      exact lookupKey_eq_none_of_not_mem sym rest h.2

theorem lookupKey_erasePosition_self (sym : String) :
    ∀ ps : List (String × Position),
      (ps.map Prod.fst).Nodup →
      lookupKey sym (erasePosition sym ps) = none
  | [], _ => rfl
  | e :: rest, h => by
      obtain ⟨hnot, hrest⟩ := List.nodup_cons.mp h
      by_cases he : e.1 = sym
      · rw [erasePosition, if_pos he]
        exact lookupKey_eq_none_of_not_mem sym rest (by rw [← he]; exact hnot)
      · rw [erasePosition, if_neg he, lookupKey_cons, if_neg he]
        exact lookupKey_erasePosition_self sym rest hrest

/-! ## Reduction lemmas for `trade` -/

theorem trade_buy_insufficient (st : AccountState) (sym : String) (qty price : ℚ)
    (h : st.balance < price * qty) :
    trade st sym "buy" qty price =
      Except.error (TradeError.insufficientFunds (price * qty) st.balance) := by
  simp only [trade, if_pos h]
  rfl

theorem trade_buy_new (st : AccountState) (sym : String) (qty price : ℚ)
    (hpos : lookupKey sym st.positions = none)
    (h : ¬ st.balance < price * qty) :
    trade st sym "buy" qty price =
      Except.ok
        { balance := st.balance - price * qty
          positions := st.positions ++ [(sym, ⟨qty, price⟩)]
          transactions :=
            st.transactions ++ [⟨sym, "buy", qty, price, price * qty⟩] } := by
  simp only [trade, if_neg h, hpos]
  rfl

theorem trade_buy_existing (st : AccountState) (sym : String) (qty price : ℚ)
    (pos : Position) (hpos : lookupKey sym st.positions = some pos)
    (h : ¬ st.balance < price * qty) (hnz : ¬ pos.quantity + qty = 0) :
    trade st sym "buy" qty price =
      Except.ok
        { balance := st.balance - price * qty
          positions :=
            setPosition sym
              ⟨pos.quantity + qty,
               (pos.avg_price * pos.quantity + price * qty) / (pos.quantity + qty)⟩
              st.positions
          transactions :=
            st.transactions ++ [⟨sym, "buy", qty, price, price * qty⟩] } := by
  simp only [trade, if_neg h, hpos, if_neg hnz]
  rfl

theorem trade_sell_no_position (st : AccountState) (sym : String) (qty price : ℚ)
    (hpos : lookupKey sym st.positions = none) :
    trade st sym "sell" qty price = Except.error TradeError.insufficientHoldings := by
  simp only [trade, hpos]
  rfl

theorem trade_sell_short (st : AccountState) (sym : String) (qty price : ℚ)
    (pos : Position) (hpos : lookupKey sym st.positions = some pos)
    (h : pos.quantity < qty) :
    trade st sym "sell" qty price = Except.error TradeError.insufficientHoldings := by
  simp only [trade, hpos, if_pos h]
  rfl

theorem trade_sell_ok (st : AccountState) (sym : String) (qty price : ℚ)
    (pos : Position) (hpos : lookupKey sym st.positions = some pos)
    (h : ¬ pos.quantity < qty) :
    trade st sym "sell" qty price =
      Except.ok
        { balance := st.balance + price * qty
          positions :=
            if pos.quantity - qty = 0 then erasePosition sym st.positions
            else setPosition sym ⟨pos.quantity - qty, pos.avg_price⟩ st.positions
          transactions :=
            st.transactions ++ [⟨sym, "sell", qty, price, price * qty⟩] } := by
  simp only [trade, hpos, if_neg h]
  rfl

/-! ## Claim theorems -/

/-- C1 (counterexample): a buy of quantity `0` on a fresh account is not
rejected — `trade` has no quantity validation at all — and it mutates
state: a zero-quantity position is created and a transaction is appended. -/
theorem trade_zero_quantity_not_rejected :
    trade initState "AAPL" "buy" 0 10 =
      Except.ok
        { balance := 0
          positions := [("AAPL", ⟨0, 10⟩)]
          transactions := [⟨"AAPL", "buy", 0, 10, 0⟩] } := by
  rw [trade_buy_new initState "AAPL" 0 10 rfl (by norm_num [initState])]
  norm_num [initState]

/-- C1 (amended): `trade` performs no quantity validation; a trade request
with `quantity ≤ 0` is processed by the ordinary buy/sell logic. In
particular a buy with `quantity ≤ 0`, nonnegative price, nonnegative
balance, and no existing position for the symbol always passes the funds
check, succeeds, debits `price * quantity` (a credit when `quantity < 0`),
creates a position with the given nonpositive quantity, and appends a
transaction record. -/
theorem trade_nonpositive_quantity_buy_proceeds (st : AccountState)
    (sym : String) (qty price : ℚ) (hq : qty ≤ 0) (hp : 0 ≤ price)
    (hb : 0 ≤ st.balance) (hpos : lookupKey sym st.positions = none) :
    trade st sym "buy" qty price =
      Except.ok
        { balance := st.balance - price * qty
          positions := st.positions ++ [(sym, ⟨qty, price⟩)]
          transactions :=
            st.transactions ++ [⟨sym, "buy", qty, price, price * qty⟩] } := by
  have htot : price * qty ≤ st.balance :=
    le_trans (mul_nonpos_iff.mpr (Or.inl ⟨hp, hq⟩)) hb
  exact trade_buy_new st sym qty price hpos (not_lt.mpr htot)

/-- C1 (witness): buying `-2` shares at price `3` with balance `5` succeeds
and credits the balance to `11`. -/
theorem trade_nonpositive_quantity_buy_proceeds_witness :
    trade ⟨5, [], []⟩ "AAPL" "buy" (-2) 3 =
      Except.ok
        { balance := (5 : ℚ) - 3 * (-2)
          positions := [("AAPL", ⟨-2, 3⟩)]
          transactions := [⟨"AAPL", "buy", -2, 3, 3 * (-2)⟩] } :=
  trade_nonpositive_quantity_buy_proceeds ⟨5, [], []⟩ "AAPL" (-2) 3
    (by norm_num) (by norm_num) (by norm_num) rfl

/-- C3: a buy whose base-currency total strictly exceeds the balance fails
with the insufficient-funds error carrying both the required total and the
available balance, and the ledger state is unchanged. -/
theorem buy_insufficient_funds_rejected (st : AccountState) (sym : String)
    (qty price : ℚ) (h : st.balance < price * qty) :
    trade st sym "buy" qty price =
      Except.error (TradeError.insufficientFunds (price * qty) st.balance) ∧
    applyOp st (Op.trade sym "buy" qty price) = st := by
  have herr := trade_buy_insufficient st sym qty price h
  exact ⟨herr, by simp [applyOp, herr]⟩

/-- C3 (witness): buying one share at price `10` with balance `5` fails with
`insufficientFunds 10 5` and leaves the fresh account unchanged. -/
theorem buy_insufficient_funds_rejected_witness :
    trade ⟨5, [], []⟩ "AAPL" "buy" 1 10 =
      Except.error (TradeError.insufficientFunds (10 * 1) 5) ∧
    applyOp ⟨5, [], []⟩ (Op.trade "AAPL" "buy" 1 10) = ⟨5, [], []⟩ :=
  buy_insufficient_funds_rejected ⟨5, [], []⟩ "AAPL" 1 10 (by norm_num)

/-- C6: a sell with no position for the symbol, or with requested quantity
strictly greater than the held quantity, fails with the
insufficient-holdings error and the ledger state is unchanged. -/
theorem sell_insufficient_holdings_rejected (st : AccountState) (sym : String)
    (qty price : ℚ)
    (h : lookupKey sym st.positions = none ∨
         ∃ pos, lookupKey sym st.positions = some pos ∧ pos.quantity < qty) :
    trade st sym "sell" qty price = Except.error TradeError.insufficientHoldings ∧
    applyOp st (Op.trade sym "sell" qty price) = st := by
  have herr : trade st sym "sell" qty price =
      Except.error TradeError.insufficientHoldings := by
    rcases h with h | ⟨pos, hpos, hlt⟩
    · exact trade_sell_no_position st sym qty price h
    · exact trade_sell_short st sym qty price pos hpos hlt
  exact ⟨herr, by simp [applyOp, herr]⟩

/-- C6 (witness): selling `3` shares while holding `2` fails with the
insufficient-holdings error and changes nothing. -/
theorem sell_insufficient_holdings_rejected_witness :
    trade ⟨5, [("AAPL", ⟨2, 4⟩)], []⟩ "AAPL" "sell" 3 10 =
      Except.error TradeError.insufficientHoldings ∧
    applyOp ⟨5, [("AAPL", ⟨2, 4⟩)], []⟩ (Op.trade "AAPL" "sell" 3 10) =
      ⟨5, [("AAPL", ⟨2, 4⟩)], []⟩ :=
  sell_insufficient_holdings_rejected ⟨5, [("AAPL", ⟨2, 4⟩)], []⟩ "AAPL" 3 10
    (Or.inr ⟨⟨2, 4⟩, rfl, by norm_num⟩)

/-- C10: a trade request whose action is neither `"buy"` nor `"sell"` falls
through both branches: it succeeds, leaves the balance and every position
unchanged, and still appends a transaction record with the given action
string, quantity, unit price, and `total = price * quantity`. -/
theorem unknown_action_appends_transaction (st : AccountState)
    (sym action : String) (qty price : ℚ)
    (h1 : action ≠ "buy") (h2 : action ≠ "sell") :
    trade st sym action qty price =
      Except.ok
        { st with transactions :=
            st.transactions ++ [⟨sym, action, qty, price, price * qty⟩] } := by
  simp only [trade, if_neg h1, if_neg h2]

/-- C10 (witness): the action string `"hold"` is accepted: balance and
positions survive untouched while the log grows. -/
theorem unknown_action_appends_transaction_witness :
    trade ⟨7, [("AAPL", ⟨2, 4⟩)], []⟩ "AAPL" "hold" 3 10 =
      Except.ok
        { balance := 7
          positions := [("AAPL", ⟨2, 4⟩)]
          transactions := [⟨"AAPL", "hold", 3, 10, 10 * 3⟩] } :=
  unknown_action_appends_transaction ⟨7, [("AAPL", ⟨2, 4⟩)], []⟩ "AAPL" "hold"
    3 10 (by decide) (by decide)

/-- Reduction lemma: a buy on an existing position whose quantity sums with
the bought quantity to zero raises `ZeroDivisionError` (main.py 967). -/
theorem trade_buy_zero_division (st : AccountState) (sym : String)
    (qty price : ℚ) (pos : Position)
    (hpos : lookupKey sym st.positions = some pos)
    (h : ¬ st.balance < price * qty) (hz : pos.quantity + qty = 0) :
    trade st sym "buy" qty price = Except.error TradeError.zeroDivision := by
  simp only [trade, if_neg h, hpos, if_pos hz]
  rfl

/-- C2: a funded buy (`total = price * qty ≤ balance`) debits the balance by
`price * qty` and, when no position exists, creates one with
`quantity = qty` and `avg_price = price`; when a position `(oq, oa)` exists
(and the summed quantity is nonzero, else the source raises
`ZeroDivisionError`), it becomes
`(oq + qty, (oa * oq + price * qty) / (oq + qty))`. -/
theorem buy_position_update (st : AccountState) (sym : String) (qty price : ℚ)
    (hf : ¬ st.balance < price * qty) :
    (lookupKey sym st.positions = none →
      trade st sym "buy" qty price =
        Except.ok
          { balance := st.balance - price * qty
            positions := st.positions ++ [(sym, ⟨qty, price⟩)]
            transactions :=
              st.transactions ++ [⟨sym, "buy", qty, price, price * qty⟩] } ∧
      lookupKey sym (st.positions ++ [(sym, (⟨qty, price⟩ : Position))]) =
        some ⟨qty, price⟩) ∧
    (∀ oq oa, lookupKey sym st.positions = some ⟨oq, oa⟩ → ¬ oq + qty = 0 →
      trade st sym "buy" qty price =
        Except.ok
          { balance := st.balance - price * qty
            positions :=
              setPosition sym
                ⟨oq + qty, (oa * oq + price * qty) / (oq + qty)⟩ st.positions
            transactions :=
              st.transactions ++ [⟨sym, "buy", qty, price, price * qty⟩] } ∧
      lookupKey sym
          (setPosition sym
            (⟨oq + qty, (oa * oq + price * qty) / (oq + qty)⟩ : Position)
            st.positions) =
        some ⟨oq + qty, (oa * oq + price * qty) / (oq + qty)⟩) := by
  constructor
  · intro hnone
    exact ⟨trade_buy_new st sym qty price hnone hf,
      lookupKey_append_single_self sym _ _ hnone⟩
  · intro oq oa hsome hnz
    exact ⟨trade_buy_existing st sym qty price ⟨oq, oa⟩ hsome hf hnz,
      lookupKey_setPosition_self sym _ _⟩

/-- C2 (witness): buying 3 more shares at price 20 on top of 2 held at
average 10 with balance 100 leaves balance `100 - 20 * 3` and the position
`(2 + 3, (10 * 2 + 20 * 3) / (2 + 3))`, i.e. `(5, 16)`. -/
theorem buy_position_update_witness :
    trade ⟨100, [("AAPL", ⟨2, 10⟩)], []⟩ "AAPL" "buy" 3 20 =
      Except.ok
        { balance := (100 : ℚ) - 20 * 3
          positions :=
            setPosition "AAPL" ⟨2 + 3, (10 * 2 + 20 * 3) / (2 + 3)⟩
              [("AAPL", ⟨2, 10⟩)]
          transactions := [⟨"AAPL", "buy", 3, 20, 20 * 3⟩] } ∧
    lookupKey "AAPL"
        (setPosition "AAPL"
          (⟨2 + 3, (10 * 2 + 20 * 3) / (2 + 3)⟩ : Position)
          [("AAPL", ⟨2, 10⟩)]) =
      some ⟨2 + 3, (10 * 2 + 20 * 3) / (2 + 3)⟩ :=
  (buy_position_update ⟨100, [("AAPL", ⟨2, 10⟩)], []⟩ "AAPL" 3 20
    (by norm_num)).2 2 10 rfl (by norm_num)

/-- C4: a covered sell (`qty ≤ held`) credits the balance by `price * qty`;
when `qty < held` the position's quantity becomes `held - qty` with
`avg_price` unchanged; when `qty = held` (with symbol keys distinct, as the
database keeps one row per user × symbol) the position row is removed
entirely. -/
theorem sell_position_update (st : AccountState) (sym : String)
    (qty price held avg : ℚ)
    (hpos : lookupKey sym st.positions = some ⟨held, avg⟩)
    (hq : ¬ held < qty) :
    (qty < held →
      trade st sym "sell" qty price =
        Except.ok
          { balance := st.balance + price * qty
            positions := setPosition sym ⟨held - qty, avg⟩ st.positions
            transactions :=
              st.transactions ++ [⟨sym, "sell", qty, price, price * qty⟩] } ∧
      lookupKey sym (setPosition sym (⟨held - qty, avg⟩ : Position) st.positions) =
        some ⟨held - qty, avg⟩) ∧
    (qty = held → (st.positions.map Prod.fst).Nodup →
      trade st sym "sell" qty price =
        Except.ok
          { balance := st.balance + price * qty
            positions := erasePosition sym st.positions
            transactions :=
              st.transactions ++ [⟨sym, "sell", qty, price, price * qty⟩] } ∧
      lookupKey sym (erasePosition sym st.positions) = none) := by
  have h := trade_sell_ok st sym qty price ⟨held, avg⟩ hpos hq
  dsimp only at h
  constructor
  · intro hlt
    rw [if_neg (sub_ne_zero.mpr (ne_of_gt hlt))] at h
    exact ⟨h, lookupKey_setPosition_self sym _ _⟩
  · intro heq hnodup
    rw [if_pos (by rw [heq, sub_self])] at h
    exact ⟨h, lookupKey_erasePosition_self sym st.positions hnodup⟩

/-- C4 (witness): selling 3 of 5 shares held at average 2 for price 4 with
balance 10 credits the balance to `10 + 4 * 3` and leaves a position of
`5 - 3` shares at unchanged average 2. -/
theorem sell_position_update_witness :
    trade ⟨10, [("A", ⟨5, 2⟩)], []⟩ "A" "sell" 3 4 =
      Except.ok
        { balance := (10 : ℚ) + 4 * 3
          positions := setPosition "A" ⟨5 - 3, 2⟩ [("A", ⟨5, 2⟩)]
          transactions := [⟨"A", "sell", 3, 4, 4 * 3⟩] } ∧
    lookupKey "A" (setPosition "A" (⟨5 - 3, 2⟩ : Position) [("A", ⟨5, 2⟩)]) =
      some ⟨5 - 3, 2⟩ :=
  (sell_position_update ⟨10, [("A", ⟨5, 2⟩)], []⟩ "A" 3 4 5 2 rfl
    (by norm_num)).1 (by norm_num)

/-- C5 (counterexample): the deposit endpoint performs no validation of the
amount, so a single deposit of `-5` on a freshly registered account drives
the balance to `-5 < 0`. -/
theorem negative_deposit_breaks_balance_invariant :
    (runOps initState [Op.deposit (-5)]).balance < 0 := by
  norm_num [runOps, applyOp, deposit, initState]

/-- Step lemma: one trade request with positive quantity and nonnegative
price keeps a nonnegative balance nonnegative, whichever branch runs. -/
theorem applyOp_trade_balance_nonneg (st : AccountState) (s act : String)
    (q p : ℚ) (hb : 0 ≤ st.balance) (hq : 0 < q) (hp : 0 ≤ p) :
    0 ≤ (applyOp st (Op.trade s act q p)).balance := by
  by_cases hbuy : act = "buy"
  · subst hbuy
    by_cases hfund : st.balance < p * q
    · simpa [applyOp, trade_buy_insufficient st s q p hfund] using hb
    · cases hl : lookupKey s st.positions with
      | none =>
          simp only [applyOp, trade_buy_new st s q p hl hfund]
          have := not_lt.mp hfund
          linarith
      | some pos =>
          by_cases hz : pos.quantity + q = 0
          · simpa [applyOp, trade_buy_zero_division st s q p pos hl hfund hz]
              using hb
          · simp only [applyOp, trade_buy_existing st s q p pos hl hfund hz]
            have := not_lt.mp hfund
            linarith
  · by_cases hsell : act = "sell"
    · subst hsell
      cases hl : lookupKey s st.positions with
      | none => simpa [applyOp, trade_sell_no_position st s q p hl] using hb
      | some pos =>
          by_cases hshort : pos.quantity < q
          · simpa [applyOp, trade_sell_short st s q p pos hl hshort] using hb
          · simp only [applyOp, trade_sell_ok st s q p pos hl hshort]
            have htot : 0 ≤ p * q := mul_nonneg hp hq.le
            linarith
    · have hoth : trade st s act q p =
          Except.ok
            { st with transactions :=
                st.transactions ++ [⟨s, act, q, p, p * q⟩] } := by
        simp only [trade, if_neg hbuy, if_neg hsell]
      simpa [applyOp, hoth] using hb

/-- C5 (amended): starting from any nonnegative balance (registration starts
at 0), every sequence of deposits of nonnegative amounts and trades of
positive quantity at nonnegative price keeps the balance nonnegative. The
unrestricted claim is false: the endpoints validate neither deposit
amounts nor trade quantities, so a negative deposit (or a sell of negative
quantity or price) drives the balance negative. -/
theorem balance_nonneg_under_valid_ops (ops : List Op) :
    ∀ st : AccountState, 0 ≤ st.balance →
      (∀ op ∈ ops, validOp op = true) → 0 ≤ (runOps st ops).balance := by
  induction ops with
  | nil => intro st h _; exact h
  | cons op rest ih =>
      intro st hb hops
      have hop : validOp op = true := hops op (List.mem_cons_self op rest)
      have hrest : ∀ o ∈ rest, validOp o = true := fun o ho =>
        hops o (List.mem_cons_of_mem op ho)
      refine ih (applyOp st op) ?_ hrest
      cases op with
      | deposit a =>
          have ha : 0 ≤ a := by simpa [validOp] using hop
          simpa [applyOp, deposit] using add_nonneg hb ha
      | trade s act q p =>
          have hqp : 0 < q ∧ 0 ≤ p := by simpa [validOp] using hop
          exact applyOp_trade_balance_nonneg st s act q p hb hqp.1 hqp.2

/-- C5 (witness): a deposit of 100, a buy of 2 at 10, and a sell of 1 at 10
from a fresh account leave a nonnegative balance. -/
theorem balance_nonneg_under_valid_ops_witness :
    0 ≤ (runOps initState
      [Op.deposit 100, Op.trade "A" "buy" 2 10,
       Op.trade "A" "sell" 1 10]).balance :=
  balance_nonneg_under_valid_ops _ initState (by norm_num [initState])
    (by
      intro op hop
      simp only [List.mem_cons, List.not_mem_nil, or_false] at hop
      rcases hop with rfl | rfl | rfl <;> norm_num [validOp])

/-- C7: for a nonempty native-currency code, `convert_to_usd` is the
identity when the uppercased code is the base currency `"USD"`; it is the
identity when the snapshot has no rate for the code (the `dict.get` default
`1` makes `amount / 1 = amount`) or when the stored rate is `≤ 0`; and
otherwise it divides the amount by the snapshot rate. -/
theorem convert_to_usd_spec (amount : ℚ) (c : String)
    (rates : List (String × ℚ)) (hc : c ≠ "") :
    (strUpper c = "USD" → convert_to_usd amount c rates = amount) ∧
    (lookupKey (strUpper c) rates = none → convert_to_usd amount c rates = amount) ∧
    (∀ r, lookupKey (strUpper c) rates = some r → r ≤ 0 →
      convert_to_usd amount c rates = amount) ∧
    (∀ r, strUpper c ≠ "USD" → lookupKey (strUpper c) rates = some r → 0 < r →
      convert_to_usd amount c rates = amount / r) := by
  refine ⟨?_, ?_, ?_, ?_⟩
  · intro h
    simp [convert_to_usd, h]
  · intro h
    by_cases husd : strUpper c = "USD"
    · simp [convert_to_usd, husd]
    · norm_num [convert_to_usd, hc, husd, h]
  · intro r h hr
    by_cases husd : strUpper c = "USD"
    · simp [convert_to_usd, husd]
    · simp [convert_to_usd, hc, husd, h, hr]
  · intro r husd h hr
    simp [convert_to_usd, hc, husd, h, not_le.mpr hr]

/-- C7 (witness): converting 10 EUR under the snapshot rate `EUR ↦ 2`
(2 EUR per USD) yields `10 / 2` USD. -/
theorem convert_to_usd_spec_witness :
    convert_to_usd 10 "eur" [("EUR", 2)] = 10 / 2 :=
  (convert_to_usd_spec 10 "eur" [("EUR", 2)] (by decide)).2.2.2 2 (by decide)
    (by decide) (by norm_num)

/-- C8: a covered sell credits the balance by exactly `price * qty`, with
the position's average price nowhere in the formula; consequently a funded
buy of `qty` immediately followed by a sell of the same `qty` at the same
base-currency price restores the balance to its pre-buy value exactly
(rational arithmetic). The roundtrip hypotheses rule out the two paths on
which the source raises: a pre-existing position must have nonnegative
quantity (else the sell is short) and must not sum with `qty` to zero
(else the buy raises `ZeroDivisionError`). -/
theorem sell_credits_price_times_qty_and_roundtrip (st : AccountState)
    (sym : String) (qty price : ℚ) :
    (∀ held avg, lookupKey sym st.positions = some ⟨held, avg⟩ → ¬ held < qty →
      ∃ st', trade st sym "sell" qty price = Except.ok st' ∧
        st'.balance = st.balance + price * qty) ∧
    (¬ st.balance < price * qty →
      (∀ pos, lookupKey sym st.positions = some pos →
        0 ≤ pos.quantity ∧ ¬ pos.quantity + qty = 0) →
      ∃ st1 st2, trade st sym "buy" qty price = Except.ok st1 ∧
        trade st1 sym "sell" qty price = Except.ok st2 ∧
        st2.balance = st.balance) := by
  constructor
  · intro held avg hpos hq
    exact ⟨_, trade_sell_ok st sym qty price ⟨held, avg⟩ hpos hq, rfl⟩
  · intro hfund hvalid
    cases hl : lookupKey sym st.positions with
    | none =>
        have hlook := lookupKey_append_single_self sym ⟨qty, price⟩
          st.positions hl
        refine ⟨_, _, trade_buy_new st sym qty price hl hfund,
          trade_sell_ok _ sym qty price ⟨qty, price⟩ hlook (lt_irrefl qty), ?_⟩
        dsimp only
        ring
    | some pos =>
        obtain ⟨hq0, hnz⟩ := hvalid pos hl
        have hlook := lookupKey_setPosition_self sym
          (⟨pos.quantity + qty,
            (pos.avg_price * pos.quantity + price * qty) /
              (pos.quantity + qty)⟩ : Position) st.positions
        refine ⟨_, _, trade_buy_existing st sym qty price pos hl hfund hnz,
          trade_sell_ok _ sym qty price _ hlook (by dsimp only; linarith), ?_⟩
        dsimp only
        ring

/-- C8 (witness): with balance 50 and a prior position of 3 shares at
average 7, selling 2 at price 10 credits `50 + 10 * 2`, and buying 2 at 10
then selling 2 at 10 restores the balance to 50. -/
theorem sell_credits_price_times_qty_and_roundtrip_witness :
    (∃ st', trade ⟨50, [("A", ⟨3, 7⟩)], []⟩ "A" "sell" 2 10 = Except.ok st' ∧
      st'.balance = 50 + 10 * 2) ∧
    (∃ st1 st2, trade ⟨50, [("A", ⟨3, 7⟩)], []⟩ "A" "buy" 2 10 = Except.ok st1 ∧
      trade st1 "A" "sell" 2 10 = Except.ok st2 ∧
      st2.balance = 50) := by
  constructor
  · exact (sell_credits_price_times_qty_and_roundtrip
      ⟨50, [("A", ⟨3, 7⟩)], []⟩ "A" 2 10).1 3 7 rfl (by norm_num)
  · refine (sell_credits_price_times_qty_and_roundtrip
      ⟨50, [("A", ⟨3, 7⟩)], []⟩ "A" 2 10).2 (by norm_num) ?_
    intro pos hpos
    have hp : (⟨3, 7⟩ : Position) = pos := by
      simpa [lookupKey] using hpos
    rw [← hp]
    norm_num

/-- The per-holding accounting contract of the report: `invested`,
`current`, and `profit` follow the stated formulas, and `profit_percent`
is `profit / invested * 100` with `0` at `invested = 0`. -/
def goodHolding (hd : Holding) : Prop :=
  hd.invested = hd.avg_price * hd.quantity ∧
  hd.current = hd.current_price * hd.quantity ∧
  hd.profit = hd.current - hd.invested ∧
  (hd.invested = 0 → hd.profit_percent = 0) ∧
  (hd.invested ≠ 0 → hd.profit_percent = hd.profit / hd.invested * 100)

theorem foldl_reportStep_fst (quotes : List (String × ℚ)) :
    ∀ (ps : List (String × Position)) (acc : ℚ × ℚ × List Holding),
      (ps.foldl (reportStep quotes) acc).1 =
        acc.1 + (ps.filterMap (fun e => (lookupKey e.1 quotes).map
          (fun _ => e.2.avg_price * e.2.quantity))).sum
  | [], acc => by simp
  | e :: rest, acc => by
      rw [List.foldl_cons, List.filterMap_cons]
      cases hq : lookupKey e.1 quotes with
      | none =>
          simp only [reportStep, hq]
          exact foldl_reportStep_fst quotes rest acc
      | some cp =>
          simp only [reportStep, hq, Option.map_some']
          rw [foldl_reportStep_fst quotes rest _, List.sum_cons]
          ring
      termination_by ps _ => ps.length

theorem foldl_reportStep_snd (quotes : List (String × ℚ)) :
    ∀ (ps : List (String × Position)) (acc : ℚ × ℚ × List Holding),
      (ps.foldl (reportStep quotes) acc).2.1 =
        acc.2.1 + (ps.filterMap (fun e => (lookupKey e.1 quotes).map
          (fun cp => cp * e.2.quantity))).sum
  | [], acc => by simp
  | e :: rest, acc => by
      rw [List.foldl_cons, List.filterMap_cons]
      cases hq : lookupKey e.1 quotes with
      | none =>
          simp only [reportStep, hq]
          exact foldl_reportStep_snd quotes rest acc
      | some cp =>
          simp only [reportStep, hq, Option.map_some']
          rw [foldl_reportStep_snd quotes rest _, List.sum_cons]
          ring
      termination_by ps _ => ps.length

theorem foldl_reportStep_holdings_good (quotes : List (String × ℚ)) :
    ∀ (ps : List (String × Position)) (acc : ℚ × ℚ × List Holding),
      (∀ hd ∈ acc.2.2, goodHolding hd) →
      (∀ e ∈ ps, 0 ≤ e.2.avg_price * e.2.quantity) →
      ∀ hd ∈ (ps.foldl (reportStep quotes) acc).2.2, goodHolding hd
  | [], _, hacc, _ => hacc
  | e :: rest, acc, hacc, hps => by
      rw [List.foldl_cons]
      have he : 0 ≤ e.2.avg_price * e.2.quantity :=
        hps e (List.mem_cons_self e rest)
      have hrest : ∀ f ∈ rest, 0 ≤ f.2.avg_price * f.2.quantity := fun f hf =>
        hps f (List.mem_cons_of_mem e hf)
      refine foldl_reportStep_holdings_good quotes rest
        (reportStep quotes acc e) ?_ hrest
      intro hd hmem
      cases hq : lookupKey e.1 quotes with
      | none =>
          simp only [reportStep, hq] at hmem
          exact hacc hd hmem
      | some cp =>
          simp only [reportStep, hq, List.mem_append,
            List.mem_singleton] at hmem
          rcases hmem with hmem | rfl
          · exact hacc hd hmem
          · refine ⟨rfl, rfl, rfl, ?_, ?_⟩
            · intro h0
              dsimp only at h0 ⊢
              rw [if_neg (by rw [h0]; exact lt_irrefl 0)]
            · intro hne
              dsimp only at hne ⊢
              rw [if_pos (lt_of_le_of_ne he (Ne.symm hne))]
      termination_by ps _ _ _ => ps.length

/-- C9: the report returns the account balance untouched; `total_invested`
and `total_current` sum `avg_price * quantity` and
`current_price * quantity` over exactly the successfully-quoted positions
(an unquoted position is skipped, not fatal);
`total_profit = total_current - total_invested`; and every holdings entry
follows the per-holding formulas, with `profit_percent = 0` at
`invested = 0`. The position products are assumed nonnegative (the source
computes `profit_percent` under `invested > 0`, which coincides with the
claim's `invested == 0` guard only when `invested` cannot be negative). -/
theorem get_report_spec (st : AccountState) (quotes : List (String × ℚ))
    (h : ∀ e ∈ st.positions, 0 ≤ e.2.avg_price * e.2.quantity) :
    (get_report st quotes).balance = st.balance ∧
    (get_report st quotes).total_invested =
      (st.positions.filterMap (fun e => (lookupKey e.1 quotes).map
        (fun _ => e.2.avg_price * e.2.quantity))).sum ∧
    (get_report st quotes).total_current =
      (st.positions.filterMap (fun e => (lookupKey e.1 quotes).map
        (fun cp => cp * e.2.quantity))).sum ∧
    (get_report st quotes).total_profit =
      (get_report st quotes).total_current -
        (get_report st quotes).total_invested ∧
    ∀ hd ∈ (get_report st quotes).holdings, goodHolding hd := by
  refine ⟨rfl, ?_, ?_, rfl, ?_⟩
  · simpa [get_report] using foldl_reportStep_fst quotes st.positions (0, 0, [])
  · simpa [get_report] using foldl_reportStep_snd quotes st.positions (0, 0, [])
  · intro hd hmem
    refine foldl_reportStep_holdings_good quotes st.positions (0, 0, [])
      (fun hd' h' => absurd h' (List.not_mem_nil hd')) h hd ?_
    simpa [get_report] using hmem

/-- C9 (witness): with positions A (2 shares at 3) and B (1 share at 5),
and a quote only for A at 4, the report keeps balance 50, totals only A's
figures (B is skipped), and every holdings entry is well-formed. -/
theorem get_report_spec_witness :
    (get_report ⟨50, [("A", ⟨2, 3⟩), ("B", ⟨1, 5⟩)], []⟩
      [("A", 4)]).balance = 50 ∧
    (get_report ⟨50, [("A", ⟨2, 3⟩), ("B", ⟨1, 5⟩)], []⟩
      [("A", 4)]).total_invested =
      (([("A", (⟨2, 3⟩ : Position)), ("B", ⟨1, 5⟩)].filterMap
        (fun e => (lookupKey e.1 [("A", (4 : ℚ))]).map
          (fun _ => e.2.avg_price * e.2.quantity))).sum) ∧
    (get_report ⟨50, [("A", ⟨2, 3⟩), ("B", ⟨1, 5⟩)], []⟩
      [("A", 4)]).total_current =
      (([("A", (⟨2, 3⟩ : Position)), ("B", ⟨1, 5⟩)].filterMap
        (fun e => (lookupKey e.1 [("A", (4 : ℚ))]).map
          (fun cp => cp * e.2.quantity))).sum) ∧
    (get_report ⟨50, [("A", ⟨2, 3⟩), ("B", ⟨1, 5⟩)], []⟩
      [("A", 4)]).total_profit =
      (get_report ⟨50, [("A", ⟨2, 3⟩), ("B", ⟨1, 5⟩)], []⟩
        [("A", 4)]).total_current -
      (get_report ⟨50, [("A", ⟨2, 3⟩), ("B", ⟨1, 5⟩)], []⟩
        [("A", 4)]).total_invested ∧
    ∀ hd ∈ (get_report ⟨50, [("A", ⟨2, 3⟩), ("B", ⟨1, 5⟩)], []⟩
      [("A", 4)]).holdings, goodHolding hd :=
  get_report_spec ⟨50, [("A", ⟨2, 3⟩), ("B", ⟨1, 5⟩)], []⟩ [("A", 4)]
    (by
      intro e he
      simp only [List.mem_cons, List.not_mem_nil, or_false] at he
      rcases he with rfl | rfl <;> norm_num)
